import Mathlib

/-!
Verification of the dossier username-search engine.

This file embeds, in Lean, the core logic of the repository's
search/reconciliation engine, found in
`src/dossier-frontend/dossier/src/routes/people/[id]/+page.svelte`:

* `slugify` — the key normalizer (trim, lowercase, collapse whitespace
  runs to `_`, strip characters outside `[a-z0-9_-]`);
* `processSearchResults` — reconciliation of a completed search job's
  result map against the person's already-known `socials` registry;
* `pollSearchResults` — the bounded polling loop that tracks a queued
  search job until a terminal state, timeout, or poll error.

Strings are modelled as Lean `String`/`List Char`; the ASCII fragment of
JavaScript's `toLowerCase` is modelled (only characters whose lowercase
form survives the `[a-z0-9_-]` strip matter to any statement proved
here).  Untrusted JSON finding values are modelled by `RawFinding`:
non-object values collapse into one constructor, and string-or-absent
fields are `Option String` (a JavaScript `undefined` and any other
falsy/non-string field value behave identically in every code path the
engine takes, so this quotient is behaviour-preserving).
-/

namespace Dossier

/-- Whitespace test of the JavaScript regular-expression class `\s` (and
of `String.prototype.trim`), by code point: tab through carriage return,
space, no-break space, ogham space mark, the U+2000 – U+200A range, line
and paragraph separators, narrow no-break space, medium mathematical
space, ideographic space, and the byte-order mark. -/
def isJsWs (c : Char) : Bool :=
  c.toNat = 9 || c.toNat = 10 || c.toNat = 11 || c.toNat = 12 || c.toNat = 13 ||
  c.toNat = 32 || c.toNat = 160 || c.toNat = 5760 ||
  (8192 ≤ c.toNat && c.toNat ≤ 8202) ||
  c.toNat = 8232 || c.toNat = 8233 || c.toNat = 8239 || c.toNat = 8287 ||
  c.toNat = 12288 || c.toNat = 65279

/-- Membership in the character class `[a-z0-9_-]` kept by the final
`replace` of `slugify`, by code point: `a`–`z` is 97–122, `0`–`9` is
48–57, `_` is 95, `-` is 45. -/
def allowedChar (c : Char) : Bool :=
  (97 ≤ c.toNat && c.toNat ≤ 122) || (48 ≤ c.toNat && c.toNat ≤ 57) ||
  c.toNat = 95 || c.toNat = 45

/-- ASCII fragment of JavaScript `String.prototype.toLowerCase`: each of
`A`–`Z` maps to its lowercase form, every other character is unchanged.
(Non-ASCII case mappings are irrelevant here: every statement proved
about `slugify` only inspects characters that survive the
`[a-z0-9_-]` strip.) -/
def jsToLower (c : Char) : Char :=
  match c with
  | 'A' => 'a' | 'B' => 'b' | 'C' => 'c' | 'D' => 'd' | 'E' => 'e'
  | 'F' => 'f' | 'G' => 'g' | 'H' => 'h' | 'I' => 'i' | 'J' => 'j'
  | 'K' => 'k' | 'L' => 'l' | 'M' => 'm' | 'N' => 'n' | 'O' => 'o'
  | 'P' => 'p' | 'Q' => 'q' | 'R' => 'r' | 'S' => 's' | 'T' => 't'
  | 'U' => 'u' | 'V' => 'v' | 'W' => 'w' | 'X' => 'x' | 'Y' => 'y'
  | 'Z' => 'z'
  | _ => c

/-- JavaScript `String.prototype.trim` on a character list: drop leading
and trailing `\s` characters. -/
def trimChars (l : List Char) : List Char :=
  ((l.dropWhile isJsWs).reverse.dropWhile isJsWs).reverse

/-- Scanner for the regular-expression replace `.replace(/\s+/g, '_')`:
the flag records whether the previous character was whitespace, so a
maximal whitespace run emits exactly one underscore, at its first
character. -/
def squashAux : Bool → List Char → List Char
  | _, [] => []
  | prevWs, c :: rest =>
    if isJsWs c then
      (if prevWs then [] else ['_']) ++ squashAux true rest
    else c :: squashAux false rest

/-- The regular-expression replace `.replace(/\s+/g, '_')`: every maximal
run of whitespace becomes a single underscore. -/
def squashWs (l : List Char) : List Char :=
  squashAux false l

/-- The key normalizer `slugify` of the source:
`s.trim().toLowerCase().replace(/\s+/g, '_').replace(/[^a-z0-9_-]/g, '')`. -/
def slugify (s : String) : String :=
  String.mk ((squashWs ((trimChars s.data).map jsToLower)).filter allowedChar)

/-- The maximal whitespace-separated words of a character list, in
order; used only by the specification-side restatement `slugifySpec`. -/
def wordsOf : List Char → List (List Char)
  | [] => []
  | c :: rest =>
    if isJsWs c then wordsOf (rest.dropWhile isJsWs)
    else (c :: rest.takeWhile (fun d => !isJsWs d)) ::
      wordsOf (rest.dropWhile (fun d => !isJsWs d))
termination_by l => l.length
decreasing_by
  all_goals exact Nat.lt_succ_of_le (List.Sublist.length_le (List.dropWhile_sublist _))

/-- Joining of words by single underscores; used only by the
specification-side restatement `slugifySpec`. -/
def joinWords : List (List Char) → List Char
  | [] => []
  | [w] => w
  | w :: ws => w ++ '_' :: joinWords ws

/-- Modelled from the spec's words for the Key Normalizer (section 4.1):
trim surrounding whitespace, lowercase, replace each run of whitespace
with a single underscore (equivalently: join the whitespace-separated
words with single underscores), and strip every character outside
`[a-z0-9_-]`.  Stated only to be compared with the source's `slugify`. -/
def slugifySpec (s : String) : String :=
  String.mk ((joinWords (wordsOf ((trimChars s.data).map jsToLower))).filter allowedChar)

/-- Whether a character list starts with a whitespace character. -/
def startsWithWs (l : List Char) : Bool :=
  l.head?.any isJsWs

/-- Whether a character list is free of trailing whitespace. -/
def noTrailingWs (l : List Char) : Bool :=
  l.getLast?.all (fun c => !isJsWs c)

/-- One value of the person's `socials` mapping: either a bare handle
string, or the structured form rendered by the page (`handle`, a
`status` string, and the `root` marker of a verified profile). -/
inductive AccountEntry where
  | bare (handle : String)
  | structured (handle : String) (status : String) (root : Bool)
deriving DecidableEq, Repr

/-- The set (as the underlying list) of normalized existing platform
keys built by `processSearchResults`: `slugify` applied to every key of
`person.socials`.  A `null` `person.socials` behaves as the empty
mapping. -/
def existingSocials (socials : List (String × AccountEntry)) : List String :=
  socials.map (fun kv => slugify kv.1)

/-- One untrusted value of a completed job's result map.  `nonObject`
covers every value failing the code's
`result && typeof result === 'object'` guard; for object values the
three fields read by the code are string-or-absent (any non-string or
falsy field value behaves like an absent one in every path taken). -/
inductive RawFinding where
  | nonObject
  | obj (status : Option String) (url_user : Option String) (username : Option String)
deriving DecidableEq, Repr

/-- The observed handle field of a finding. -/
def usernameOf : RawFinding → Option String
  | .nonObject => none
  | .obj _ _ u => u

/-- JavaScript truthiness of a string-or-absent value: absent and the
empty string are falsy. -/
def optTruthy : Option String → Bool
  | none => false
  | some s => !s.isEmpty

/-- The JavaScript `a || b` fallback on a string-or-absent left operand,
as in `res.username || searchUsername` and `jobStatus.error || '...'`. -/
def jsOrStr (o : Option String) (fallback : String) : String :=
  match o with
  | some s => if s.isEmpty then fallback else s
  | none => fallback

/-- The code's test `result && typeof result === 'object'` together with
`res.status === 'Claimed'`. -/
def isClaimedB : RawFinding → Bool
  | .nonObject => false
  | .obj status _ _ => status == some "Claimed"

/-- Truthiness of the finding's `url_user` field. -/
def urlTruthyB : RawFinding → Bool
  | .nonObject => false
  | .obj _ url_user _ => optTruthy url_user

/-- A finding passing the full candidate filter of the loop body:
an object with `status === 'Claimed'` and a truthy `url_user`. -/
def eligibleB (r : RawFinding) : Bool :=
  isClaimedB r && urlTruthyB r

/-- One entry pushed onto `foundAccounts` by the loop body. -/
structure FoundAccount where
  platform : String
  url : String
  handle : String
  displayName : String
deriving DecidableEq, Repr

/-- The body of the `for (const [siteName, result] of Object.entries(results))`
loop of `processSearchResults`, read with the spec's intended
subject-query fallback in place of the identifier `searchUsername` —
which, in the source, is a local of `searchSocialAccounts` and is
unbound inside `processSearchResults`, so the real push throws a
`ReferenceError` whenever `res.username` is falsy
(see `entryCandidateJs` for the faithful scoping model).  On the runs
that do not reach that throw the two models agree: `none` when the
iteration pushes nothing (non-object value, status other than
`Claimed`, falsy `url_user`, or platform slug already present),
otherwise the pushed entry.  The known-key set is fixed before the
loop, so the iterations are independent. -/
def entryCandidate (existing : List String) (searchUsername : String)
    (siteName : String) (r : RawFinding) : Option FoundAccount :=
  match r with
  | .nonObject => none
  | .obj status url_user username =>
    match status, url_user with
    | some st, some u =>
      if st = "Claimed" ∧ u ≠ "" then
        if existing.contains (slugify siteName) then none
        else some
          { platform := slugify siteName
            url := u
            handle := jsOrStr username searchUsername
            displayName := siteName }
      else none
    | _, _ => none

/-- The candidate list `foundAccounts` computed over the result map
(iteration order of `Object.entries`) in the idealized fallback reading
of `entryCandidate`; `foundAccountsJs` is the faithful model in which a
falsy observed handle on a pushed finding throws instead.  Every
candidate the source can actually emit is a candidate of this list. -/
def foundAccounts (results : List (String × RawFinding))
    (socials : List (String × AccountEntry)) (searchUsername : String) : List FoundAccount :=
  results.filterMap (fun e => entryCandidate (existingSocials socials) searchUsername e.1 e.2)

/-- The `totalClaimed` count of `processSearchResults`: result-map
values that are objects with `status === 'Claimed'` (whether or not they
carry a url). -/
def totalClaimed (results : List (String × RawFinding)) : Nat :=
  (results.filter (fun e => isClaimedB e.2)).length

/-- The three distinct user-facing reports of `processSearchResults`:
the `searchJobStatus` success message with the number of new accounts,
the `searchError` message naming how many platforms were already added,
and the `searchError` message for an empty find. -/
inductive ProcMessage where
  | foundNew (n : Nat)
  | noNewAlreadyAdded (skipped : Nat)
  | noneFound
deriving DecidableEq, Repr

/-- The report branch at the end of `processSearchResults`: on an empty
candidate list the code computes `skippedCount = totalClaimed - 0` and
branches on `skippedCount > 0`. -/
def procMessage (results : List (String × RawFinding))
    (socials : List (String × AccountEntry)) (searchUsername : String) : ProcMessage :=
  let fa := foundAccounts results socials searchUsername
  if fa.length = 0 then
    let skipped := totalClaimed results - fa.length
    if 0 < skipped then .noNewAlreadyAdded skipped else .noneFound
  else .foundNew fa.length

/-- The whole of `processSearchResults` on a non-null result map in the
idealized fallback reading: the candidate list assigned to
`searchResults` and the report.  `processSearchResultsJs` is the
faithful model including the throwing handle fallback. -/
def processSearchResults (results : List (String × RawFinding))
    (socials : List (String × AccountEntry)) (searchUsername : String) :
    List FoundAccount × ProcMessage :=
  (foundAccounts results socials searchUsername,
   procMessage results socials searchUsername)

/-- Faithful model of one loop iteration of `processSearchResults`
under the source's actual scoping: the pushed object literal evaluates
`res.username || searchUsername`, and `searchUsername` is a local of
`searchSocialAccounts` that is not in scope here (the component-scope
variable is the never-read `currentSearchUsername`), so when
`res.username` is falsy the evaluation throws
`ReferenceError: searchUsername is not defined`.  A truthy
`res.username` short-circuits the `||` and pushes normally. -/
def entryCandidateJs (existing : List String) (siteName : String) (r : RawFinding) :
    Except String (Option FoundAccount) :=
  match r with
  | .nonObject => .ok none
  | .obj status url_user username =>
    match status, url_user with
    | some st, some u =>
      if st = "Claimed" ∧ u ≠ "" then
        if existing.contains (slugify siteName) then .ok none
        else
          match username with
          | some h =>
            if h.isEmpty then .error "searchUsername is not defined"
            else .ok (some
              { platform := slugify siteName
                url := u
                handle := h
                displayName := siteName })
          | none => .error "searchUsername is not defined"
      else .ok none
    | _, _ => .ok none

/-- The reconciliation loop under the faithful scoping model: entries
are processed in order and the first throwing iteration aborts the
whole run (the exception propagates out of `processSearchResults`, no
candidate list is ever assigned). -/
def accumCandidatesJs (existing : List String) :
    List (String × RawFinding) → Except String (List FoundAccount)
  | [] => .ok []
  | e :: rest =>
    match entryCandidateJs existing e.1 e.2 with
    | .error msg => .error msg
    | .ok none => accumCandidatesJs existing rest
    | .ok (some c) =>
      match accumCandidatesJs existing rest with
      | .error msg => .error msg
      | .ok cs => .ok (c :: cs)

/-- The candidate list of `processSearchResults` under the faithful
scoping model: either the list of pushed entries, or the message of the
`ReferenceError` thrown mid-loop. -/
def foundAccountsJs (results : List (String × RawFinding))
    (socials : List (String × AccountEntry)) : Except String (List FoundAccount) :=
  accumCandidatesJs (existingSocials socials) results

/-- The whole of `processSearchResults` on a non-null result map under
the faithful scoping model: a thrown `ReferenceError` propagates to the
caller (whose catch assigns `searchError`), otherwise the candidate
list and report are produced as in the idealized model. -/
def processSearchResultsJs (results : List (String × RawFinding))
    (socials : List (String × AccountEntry)) :
    Except String (List FoundAccount × ProcMessage) :=
  match foundAccountsJs results socials with
  | .error msg => .error msg
  | .ok fa =>
    .ok (fa,
      if fa.length = 0 then
        if 0 < totalClaimed results - fa.length then
          ProcMessage.noNewAlreadyAdded (totalClaimed results - fa.length)
        else ProcMessage.noneFound
      else ProcMessage.foundNew fa.length)

/-- `processSearchResultsJs` including its
`if (!results || !person) return;` guard: a null result map is a no-op
(the guard runs before any finding is touched, so it cannot throw). -/
def processSearchResultsJsOpt (results : Option (List (String × RawFinding)))
    (socials : List (String × AccountEntry)) :
    Option (Except String (List FoundAccount × ProcMessage)) :=
  results.map (fun rs => processSearchResultsJs rs socials)

/-- Modelled from the spec's words (section 4.3, step 6, as read by the
claim): the count of Claimed findings skipped because their normalized
key is already known — findings passing the Claimed-and-url filter whose
slug is in the existing-key set. -/
def skippedExistingCount (results : List (String × RawFinding))
    (socials : List (String × AccountEntry)) : Nat :=
  (results.filter
    (fun e => eligibleB e.2 && (existingSocials socials).contains (slugify e.1))).length

/-- Claimed findings that never reach the known-key check because their
`url_user` is absent or empty. -/
def claimedWithoutUrlCount (results : List (String × RawFinding)) : Nat :=
  (results.filter (fun e => isClaimedB e.2 && !urlTruthyB e.2)).length

/-- The `continue`-on-existing branch of the loop body: the finding
passed the Claimed-and-url filter but its slug is already known. -/
def skippedAsExistingB (existing : List String) (siteName : String) (r : RawFinding) : Bool :=
  eligibleB r && existing.contains (slugify siteName)

/-- The response object of `api.get_sherlock_job_status`, with the three
fields read by `pollSearchResults`. -/
structure JobStatusResp where
  status : String
  results : Option (List (String × RawFinding))
  error : Option String
deriving DecidableEq, Repr

/-- One backend poll: either the awaited call rejects (the `catch`
branch) or it yields a status response. -/
inductive PollResp where
  | err (msg : String)
  | ok (resp : JobStatusResp)
deriving DecidableEq, Repr

/-- The exit taken by the polling loop: terminal `completed` (results
handed to reconciliation), terminal `failed` (its `searchError`
message), attempt-budget exhaustion (the timed-out `searchError`), a
rejected poll (the `catch` branch's `searchError`), or the silent stop
on an unrecognized non-terminal status below the budget. -/
inductive PollOutcome where
  | completedOut (results : Option (List (String × RawFinding)))
  | failedOut (msg : String)
  | timedOut
  | pollError (msg : String)
  | silentStop
deriving DecidableEq, Repr

/-- One run of the polling loop: its exit, how many polls were issued,
and the total scheduled delay (`setTimeout(poll, 5000)` per retry). -/
structure PollRun where
  outcome : PollOutcome
  polls : Nat
  delayMs : Nat
deriving DecidableEq, Repr

/-- The interval of `setTimeout(poll, 5000)`, in milliseconds. -/
def sherlockPollIntervalMs : Nat := 5000

/-- The `maxAttempts = 60` budget of `pollSearchResults`. -/
def sherlockMaxAttempts : Nat := 60

/-- A poll response on which the loop keeps going: a successful read
whose status is `pending` or `running`. -/
def isContB : PollResp → Bool
  | .err _ => false
  | .ok resp => resp.status == "pending" || resp.status == "running"

/-- The recursive `poll` closure of `pollSearchResults`.  `k` is the
value of the mutable `attempts` counter when the iteration starts (the
iteration reads `backend k`, the `k`-th poll); the fuel argument only
bounds the recursion and `pollSearchResults` supplies enough for every
reachable iteration.  Branch order follows the source: `completed`,
`failed`, then `attempts++` and either a scheduled retry, the timeout
report once the budget is reached, or a silent stop. -/
def pollAux (backend : Nat → PollResp) (maxAttempts : Nat) : Nat → Nat → PollRun
  | 0, _ => ⟨.silentStop, 0, 0⟩
  | fuel + 1, k =>
    match backend k with
    | .err msg => ⟨.pollError msg, 1, 0⟩
    | .ok resp =>
      if resp.status = "completed" then ⟨.completedOut resp.results, 1, 0⟩
      else if resp.status = "failed" then
        ⟨.failedOut (jsOrStr resp.error "Search failed"), 1, 0⟩
      else if k + 1 < maxAttempts ∧ (resp.status = "pending" ∨ resp.status = "running") then
        let rest := pollAux backend maxAttempts fuel (k + 1)
        ⟨rest.outcome, rest.polls + 1, rest.delayMs + sherlockPollIntervalMs⟩
      else if maxAttempts ≤ k + 1 then ⟨.timedOut, 1, 0⟩
      else ⟨.silentStop, 1, 0⟩

/-- The polling loop of `pollSearchResults`, parametrized by the budget
(the source fixes it to `sherlockMaxAttempts`): starts at attempt 0 with
fuel covering the whole budget. -/
def pollSearchResults (backend : Nat → PollResp) (maxAttempts : Nat) : PollRun :=
  pollAux backend maxAttempts (maxAttempts + 1) 0

/-- Scenario backend: `running` for polls 0, 1 and 2, then `completed`
with a one-entry result map. -/
def backendC : Nat → PollResp := fun i =>
  if i < 3 then .ok ⟨"running", none, none⟩
  else .ok ⟨"completed",
    some [("GitHub", RawFinding.obj (some "Claimed") (some "https://github.com/jdoe") none)],
    none⟩

/-- Scenario backend: perpetually `pending`. -/
def pendingBackend : Nat → PollResp := fun _ => .ok ⟨"pending", none, none⟩

/-- Scenario backend: the very first poll rejects, every later one
would report `running`. -/
def backendErr : Nat → PollResp := fun i =>
  if i = 0 then .err "network down" else .ok ⟨"running", none, none⟩

/-- Scenario backend: one `running` poll, then every poll rejects. -/
def backendStumble : Nat → PollResp := fun i =>
  if i = 0 then .ok ⟨"running", none, none⟩ else .err "boom"

/-! ## Character-level lemmas about the normalizer's alphabet -/

theorem allowedChar_not_ws (c : Char) (h : allowedChar c = true) : isJsWs c = false := by
  simp only [allowedChar, Bool.or_eq_true, Bool.and_eq_true, decide_eq_true_eq] at h
  simp only [isJsWs, Bool.or_eq_false_iff, Bool.and_eq_false_iff, decide_eq_false_iff_not]
  omega

theorem jsToLower_fixed (c : Char) (h : allowedChar c = true) : jsToLower c = c := by
  unfold jsToLower
  split
  all_goals first
    | rfl
    | exact absurd h (by decide)

theorem isJsWs_jsToLower (c : Char) : isJsWs (jsToLower c) = isJsWs c := by
  unfold jsToLower
  split
  all_goals rfl

/-! ## List helpers for `dropWhile` and `takeWhile` -/

theorem head?_dropWhile_false (p : Char → Bool) (l : List Char) (x : Char)
    (hx : (l.dropWhile p).head? = some x) : p x = false := by
  induction l with
  | nil => simp [List.dropWhile] at hx
  | cons c rest ih =>
    rw [List.dropWhile_cons] at hx
    by_cases h : p c = true
    · rw [if_pos h] at hx; exact ih hx
    · rw [if_neg h] at hx
      simp only [List.head?_cons, Option.some.injEq] at hx
      subst hx
      exact Bool.eq_false_iff.mpr h

theorem getLast?_dropWhile (p : Char → Bool) (l : List Char) (h : l.dropWhile p ≠ []) :
    (l.dropWhile p).getLast? = l.getLast? := by
  induction l with
  | nil => exact absurd rfl h
  | cons c rest ih =>
    rw [List.dropWhile_cons] at h ⊢
    by_cases hc : p c = true
    · rw [if_pos hc] at h ⊢
      rw [ih h]
      cases rest with
      | nil => simp [List.dropWhile] at h
      | cons b t => rw [List.getLast?_cons_cons]
    · rw [if_neg hc]

theorem startsWithWs_dropWhile (l : List Char) :
    startsWithWs (l.dropWhile isJsWs) = false := by
  unfold startsWithWs
  cases hx : (l.dropWhile isJsWs).head? with
  | none => rfl
  | some x =>
    have := head?_dropWhile_false isJsWs l x hx
    simp [Option.any, this]

theorem noTrailingWs_tail (c : Char) (rest : List Char)
    (h : noTrailingWs (c :: rest) = true) : noTrailingWs rest = true := by
  cases rest with
  | nil => rfl
  | cons b t =>
    unfold noTrailingWs at h ⊢
    rw [List.getLast?_cons_cons] at h
    exact h

theorem noTrailingWs_dropWhile (p : Char → Bool) (l : List Char)
    (h : noTrailingWs l = true) : noTrailingWs (l.dropWhile p) = true := by
  induction l with
  | nil => rfl
  | cons c rest ih =>
    rw [List.dropWhile_cons]
    by_cases hc : p c = true
    · rw [if_pos hc]; exact ih (noTrailingWs_tail c rest h)
    · rw [if_neg hc]; exact h

theorem eq_nil_of_dropWhile_ws_nil (l : List Char) (h : noTrailingWs l = true)
    (h0 : l.dropWhile isJsWs = []) : l = [] := by
  induction l with
  | nil => rfl
  | cons c rest ih =>
    rw [List.dropWhile_cons] at h0
    by_cases hc : isJsWs c = true
    · rw [if_pos hc] at h0
      have hr := ih (noTrailingWs_tail c rest h) h0
      subst hr
      unfold noTrailingWs at h
      simp [hc] at h
    · rw [if_neg hc] at h0
      exact absurd h0 (by simp)

/-! ## Equivalence of the scanner with the words-and-join reading -/

set_option maxHeartbeats 2000000 in
theorem wordsOf_nil : wordsOf [] = [] := by
  rw [wordsOf]

theorem wordsOf_cons (c : Char) (rest : List Char) :
    wordsOf (c :: rest) =
      if isJsWs c then wordsOf (rest.dropWhile isJsWs)
      else (c :: rest.takeWhile (fun d => !isJsWs d)) ::
        wordsOf (rest.dropWhile (fun d => !isJsWs d)) := by
  rw [wordsOf]

theorem squashAux_true_eq (l : List Char) :
    squashAux true l = squashAux false (l.dropWhile isJsWs) := by
  induction l with
  | nil => rfl
  | cons c rest ih =>
    rw [List.dropWhile_cons]
    by_cases hc : isJsWs c = true
    · rw [if_pos hc]
      simp [squashAux, hc, ih]
    · rw [if_neg hc]
      simp [squashAux, hc]

theorem squashAux_false_append (t d : List Char) (ht : ∀ x ∈ t, isJsWs x = false) :
    squashAux false (t ++ d) = t ++ squashAux false d := by
  induction t with
  | nil => rfl
  | cons x t' ih =>
    have hx : isJsWs x = false := ht x (List.mem_cons_self x t')
    show squashAux false (x :: (t' ++ d)) = x :: (t' ++ squashAux false d)
    rw [show squashAux false (x :: (t' ++ d)) = x :: squashAux false (t' ++ d) from by
      simp [squashAux, hx]]
    rw [ih fun y hy => ht y (List.mem_cons_of_mem x hy)]

theorem joinWords_cons_of_ne (w : List Char) (ws : List (List Char)) (h : ws ≠ []) :
    joinWords (w :: ws) = w ++ '_' :: joinWords ws := by
  cases ws with
  | nil => exact absurd rfl h
  | cons y t => rfl

theorem squash_structure (l : List Char) (h : noTrailingWs l = true) :
    squashWs l =
      (if startsWithWs l then '_' :: joinWords (wordsOf l) else joinWords (wordsOf l)) ∧
    (l ≠ [] → wordsOf l ≠ []) := by
  cases l with
  | nil =>
    refine ⟨?_, fun hc => absurd rfl hc⟩
    rw [wordsOf_nil]
    rfl
  | cons c rest =>
    by_cases hc : isJsWs c = true
    · have htail := noTrailingWs_tail c rest h
      have hr : noTrailingWs (rest.dropWhile isJsWs) = true :=
        noTrailingWs_dropWhile isJsWs rest htail
      have hrne : rest.dropWhile isJsWs ≠ [] := by
        intro h0
        have hl0 : (c :: rest).dropWhile isJsWs = [] := by
          rw [List.dropWhile_cons, if_pos hc]; exact h0
        exact absurd (eq_nil_of_dropWhile_ws_nil _ h hl0) (by simp)
      obtain ⟨ih1, ih2⟩ := squash_structure (rest.dropWhile isJsWs) hr
      have hsw : ¬ (startsWithWs (rest.dropWhile isJsWs) = true) := by
        rw [startsWithWs_dropWhile]; exact Bool.false_ne_true
      rw [if_neg hsw] at ih1
      have e2 : wordsOf (c :: rest) = wordsOf (rest.dropWhile isJsWs) := by
        rw [wordsOf_cons, if_pos hc]
      constructor
      · have e1 : squashWs (c :: rest) = '_' :: squashWs (rest.dropWhile isJsWs) := by
          show squashAux false (c :: rest) = _
          simp only [squashAux, hc, if_true, Bool.false_eq_true, if_false,
            List.singleton_append, squashAux_true_eq]
          rfl
        have hsw2 : startsWithWs (c :: rest) = true := by
          simp [startsWithWs, Option.any, hc]
        rw [e1, ih1, e2, if_pos hsw2]
      · intro _
        rw [e2]; exact ih2 hrne
    · have hcf : isJsWs c = false := Bool.eq_false_iff.mpr hc
      have hrest : rest.takeWhile (fun d => !isJsWs d) ++ rest.dropWhile (fun d => !isJsWs d)
          = rest := List.takeWhile_append_dropWhile (fun d => !isJsWs d) rest
      have htmem : ∀ x ∈ rest.takeWhile (fun d => !isJsWs d), isJsWs x = false := by
        intro x hx
        have := List.mem_takeWhile_imp hx
        simpa using this
      have e2 : wordsOf (c :: rest) =
          (c :: rest.takeWhile (fun d => !isJsWs d)) ::
            wordsOf (rest.dropWhile (fun d => !isJsWs d)) := by
        rw [wordsOf_cons, if_neg hc]
      have e1 : squashWs (c :: rest) =
          c :: (rest.takeWhile (fun d => !isJsWs d) ++
            squashAux false (rest.dropWhile (fun d => !isJsWs d))) := by
        show squashAux false (c :: rest) = _
        simp only [squashAux, hcf, Bool.false_eq_true, if_false]
        rw [show squashAux false rest
            = squashAux false (rest.takeWhile (fun d => !isJsWs d) ++
              rest.dropWhile (fun d => !isJsWs d)) from by rw [hrest]]
        rw [squashAux_false_append _ _ htmem]
      have hsw : ¬ (startsWithWs (c :: rest) = true) := by
        simp [startsWithWs, Option.any, hcf]
      refine ⟨?_, fun _ => by rw [e2]; exact fun hx => List.noConfusion hx⟩
      rw [e1, e2, if_neg hsw]
      by_cases hdnil : rest.dropWhile (fun d => !isJsWs d) = []
      · rw [hdnil]
        rw [wordsOf_nil]
        simp [joinWords, squashAux]
      · obtain ⟨y, t', hdy⟩ := List.exists_cons_of_ne_nil hdnil
        have hy : isJsWs y = true := by
          have := head?_dropWhile_false (fun d => !isJsWs d) rest y (by rw [hdy]; rfl)
          simpa using this
        have hdws : startsWithWs (rest.dropWhile (fun d => !isJsWs d)) = true := by
          rw [hdy]; simp [startsWithWs, Option.any, hy]
        have hnd : noTrailingWs (rest.dropWhile (fun d => !isJsWs d)) = true :=
          noTrailingWs_dropWhile _ rest (noTrailingWs_tail c rest h)
        obtain ⟨ih1, ih2⟩ := squash_structure (rest.dropWhile (fun d => !isJsWs d)) hnd
        rw [if_pos hdws] at ih1
        have hwd : wordsOf (rest.dropWhile (fun d => !isJsWs d)) ≠ [] := ih2 hdnil
        rw [joinWords_cons_of_ne _ _ hwd]
        rw [show squashAux false (rest.dropWhile (fun d => !isJsWs d))
            = squashWs (rest.dropWhile (fun d => !isJsWs d)) from rfl, ih1]
        simp
termination_by l.length
decreasing_by
  all_goals subst_vars
  all_goals exact Nat.lt_succ_of_le (List.Sublist.length_le (List.dropWhile_sublist _))

/-! ## Trimmed input has no surrounding whitespace -/

theorem trimChars_noLeading (l : List Char) : startsWithWs (trimChars l) = false := by
  unfold trimChars startsWithWs
  by_cases hb : (l.dropWhile isJsWs).reverse.dropWhile isJsWs = []
  · rw [hb]; rfl
  · rw [List.head?_reverse, getLast?_dropWhile _ _ hb, List.getLast?_reverse]
    cases hx : (l.dropWhile isJsWs).head? with
    | none => rfl
    | some x => simp [Option.any, head?_dropWhile_false isJsWs l x hx]

theorem trimChars_noTrailing (l : List Char) : noTrailingWs (trimChars l) = true := by
  unfold trimChars noTrailingWs
  rw [List.getLast?_reverse]
  cases hx : ((l.dropWhile isJsWs).reverse.dropWhile isJsWs).head? with
  | none => rfl
  | some x => simp [Option.all, head?_dropWhile_false isJsWs _ x hx]

theorem startsWithWs_map (l : List Char) (h : startsWithWs l = false) :
    startsWithWs (l.map jsToLower) = false := by
  unfold startsWithWs at h ⊢
  rw [List.head?_map]
  cases hx : l.head? with
  | none => rfl
  | some x =>
    rw [hx] at h
    simp only [Option.map_some', Option.any_some, isJsWs_jsToLower]
    simpa using h

theorem noTrailingWs_map (l : List Char) (h : noTrailingWs l = true) :
    noTrailingWs (l.map jsToLower) = true := by
  unfold noTrailingWs at h ⊢
  rw [List.getLast?_map]
  cases hx : l.getLast? with
  | none => rfl
  | some x =>
    rw [hx] at h
    simp only [Option.map_some', Option.all_some, isJsWs_jsToLower]
    simpa using h

theorem slugify_eq_spec (s : String) : slugify s = slugifySpec s := by
  unfold slugify slugifySpec
  have h1 : noTrailingWs ((trimChars s.data).map jsToLower) = true :=
    noTrailingWs_map _ (trimChars_noTrailing s.data)
  have h2 : startsWithWs ((trimChars s.data).map jsToLower) = false :=
    startsWithWs_map _ (trimChars_noLeading s.data)
  obtain ⟨e, -⟩ := squash_structure _ h1
  rw [show squashWs ((trimChars s.data).map jsToLower)
      = joinWords (wordsOf ((trimChars s.data).map jsToLower)) from by
    rw [e, if_neg (by rw [h2]; exact Bool.false_ne_true)]]

/-! ## Idempotence of the normalizer -/

theorem mem_slugify_allowed (s : String) (x : Char) (hx : x ∈ (slugify s).data) :
    allowedChar x = true :=
  (List.mem_filter.mp hx).2

theorem dropWhile_ws_of_allowed (l : List Char) (h : ∀ x ∈ l, allowedChar x = true) :
    l.dropWhile isJsWs = l := by
  cases l with
  | nil => rfl
  | cons c rest =>
    rw [List.dropWhile_cons, if_neg]
    rw [allowedChar_not_ws c (h c (List.mem_cons_self c rest))]
    exact Bool.false_ne_true

theorem trimChars_of_allowed (l : List Char) (h : ∀ x ∈ l, allowedChar x = true) :
    trimChars l = l := by
  unfold trimChars
  rw [dropWhile_ws_of_allowed l h]
  rw [dropWhile_ws_of_allowed l.reverse (fun x hx => h x (List.mem_reverse.mp hx))]
  exact List.reverse_reverse l

theorem map_jsToLower_of_allowed (l : List Char) (h : ∀ x ∈ l, allowedChar x = true) :
    l.map jsToLower = l := by
  induction l with
  | nil => rfl
  | cons c rest ih =>
    rw [List.map_cons, jsToLower_fixed c (h c (List.mem_cons_self c rest)),
      ih fun x hx => h x (List.mem_cons_of_mem c hx)]

theorem squashWs_of_noWs (l : List Char) (h : ∀ x ∈ l, isJsWs x = false) :
    squashWs l = l := by
  unfold squashWs
  induction l with
  | nil => rfl
  | cons c rest ih =>
    have hc : isJsWs c = false := h c (List.mem_cons_self c rest)
    show squashAux false (c :: rest) = c :: rest
    rw [show squashAux false (c :: rest) = c :: squashAux false rest from by
      simp [squashAux, hc]]
    rw [ih fun x hx => h x (List.mem_cons_of_mem c hx)]

theorem slugify_idem (s : String) : slugify (slugify s) = slugify s := by
  have hall : ∀ x ∈ (slugify s).data, allowedChar x = true :=
    fun x hx => mem_slugify_allowed s x hx
  have hnw : ∀ x ∈ (slugify s).data, isJsWs x = false :=
    fun x hx => allowedChar_not_ws x (hall x hx)
  show String.mk ((squashWs ((trimChars (slugify s).data).map jsToLower)).filter allowedChar)
      = slugify s
  rw [trimChars_of_allowed _ hall, map_jsToLower_of_allowed _ hall, squashWs_of_noWs _ hnw,
    List.filter_eq_self.mpr hall]

/-! ## Anatomy of one reconciliation loop iteration -/

theorem isEmpty_false_of_ne (s : String) (h : s ≠ "") : s.isEmpty = false := by
  rw [Bool.eq_false_iff]
  intro hx
  exact h ((String.isEmpty_iff s).mp hx)

theorem entryCandidate_eq_some (existing : List String) (searchUsername siteName : String)
    (r : RawFinding) (c : FoundAccount)
    (h : entryCandidate existing searchUsername siteName r = some c) :
    ∃ st u user, r = RawFinding.obj (some st) (some u) user ∧ st = "Claimed" ∧ u ≠ "" ∧
      existing.contains (slugify siteName) = false ∧
      c = ⟨slugify siteName, u, jsOrStr user searchUsername, siteName⟩ := by
  unfold entryCandidate at h
  cases r with
  | nonObject => exact absurd h (by simp)
  | obj status url_user username =>
    cases status with
    | none => cases url_user <;> simp at h
    | some st =>
      cases url_user with
      | none => simp at h
      | some u =>
        dsimp only at h
        by_cases hcond : st = "Claimed" ∧ u ≠ ""
        · rw [if_pos hcond] at h
          by_cases hex : existing.contains (slugify siteName) = true
          · rw [if_pos hex] at h
            exact absurd h (by simp)
          · rw [if_neg hex] at h
            refine ⟨st, u, username, rfl, hcond.1, hcond.2, Bool.eq_false_iff.mpr hex, ?_⟩
            injection h with h
            exact h.symm
        · rw [if_neg hcond] at h
          exact absurd h (by simp)

theorem entryCandidate_none_of_not_eligible (existing : List String)
    (searchUsername siteName : String) (r : RawFinding) (h : eligibleB r = false) :
    entryCandidate existing searchUsername siteName r = none := by
  unfold eligibleB isClaimedB urlTruthyB optTruthy at h
  unfold entryCandidate
  cases r with
  | nonObject => rfl
  | obj status url_user username =>
    cases status with
    | none => cases url_user <;> rfl
    | some st =>
      cases url_user with
      | none => rfl
      | some u =>
        dsimp only at h ⊢
        rw [if_neg]
        rintro ⟨h1, h2⟩
        subst h1
        rw [isEmpty_false_of_ne u h2] at h
        simp at h

theorem entryCandidate_isSome_iff (existing : List String)
    (searchUsername siteName : String) (r : RawFinding) :
    (entryCandidate existing searchUsername siteName r).isSome
      = (eligibleB r && !(existing.contains (slugify siteName))) := by
  unfold entryCandidate eligibleB isClaimedB urlTruthyB optTruthy
  cases r with
  | nonObject => rfl
  | obj status url_user username =>
    cases status with
    | none => cases url_user <;> rfl
    | some st =>
      cases url_user with
      | none => simp
      | some u =>
        dsimp only
        by_cases hcond : st = "Claimed" ∧ u ≠ ""
        · obtain ⟨h1, h2⟩ := hcond
          subst h1
          rw [if_pos ⟨rfl, h2⟩, isEmpty_false_of_ne u h2]
          by_cases hex : existing.contains (slugify siteName) = true
          · rw [if_pos hex, hex]
            rfl
          · rw [if_neg hex, Bool.eq_false_iff.mpr hex]
            rfl
        · rw [if_neg hcond]
          rcases not_and_or.mp hcond with h1 | h2
          · have : (st == "Claimed") = false := by
              rw [Bool.eq_false_iff]
              intro hx
              exact h1 (beq_iff_eq.mp hx)
            simp [this]
          · have hu : u = "" := not_not.mp h2
            subst hu
            simp
            intro _ hx
            exact absurd hx (by decide)

theorem c6_partition (results : List (String × RawFinding))
    (socials : List (String × AccountEntry)) (searchUsername : String) :
    totalClaimed results
      = (foundAccounts results socials searchUsername).length
        + skippedExistingCount results socials + claimedWithoutUrlCount results := by
  induction results with
  | nil => rfl
  | cons e rest ih =>
    unfold totalClaimed foundAccounts skippedExistingCount claimedWithoutUrlCount at ih ⊢
    rw [List.filter_cons, List.filter_cons, List.filter_cons, List.filterMap_cons]
    have hsome := entryCandidate_isSome_iff (existingSocials socials) searchUsername e.1 e.2
    by_cases hcl : isClaimedB e.2 = true
    · by_cases hurl : urlTruthyB e.2 = true
      · have hel : eligibleB e.2 = true := by unfold eligibleB; rw [hcl, hurl]; rfl
        by_cases hex : (existingSocials socials).contains (slugify e.1) = true
        · have hnone : entryCandidate (existingSocials socials) searchUsername e.1 e.2
              = none := by
            rw [hel, hex] at hsome
            cases hopt : entryCandidate (existingSocials socials) searchUsername e.1 e.2 with
            | none => rfl
            | some c => rw [hopt] at hsome; simp at hsome
          rw [hnone]
          have hexm : slugify e.1 ∈ existingSocials socials := List.elem_iff.mp hex
          simp [hcl, hel, hurl, hexm] at ih ⊢
          omega
        · have hexf : (existingSocials socials).contains (slugify e.1) = false :=
            Bool.eq_false_iff.mpr hex
          have hsome' : (entryCandidate (existingSocials socials) searchUsername e.1 e.2).isSome
              = true := by
            rw [hsome, hel, hexf]
            rfl
          obtain ⟨c, hc⟩ := Option.isSome_iff_exists.mp hsome'
          rw [hc]
          have hexm : ¬ (slugify e.1 ∈ existingSocials socials) :=
            fun hm => hex (List.elem_iff.mpr hm)
          simp [hcl, hel, hurl, hexm] at ih ⊢
          omega
      · have hurlf : urlTruthyB e.2 = false := Bool.eq_false_iff.mpr hurl
        have hel : eligibleB e.2 = false := by unfold eligibleB; rw [hurlf]; simp
        have hnone := entryCandidate_none_of_not_eligible
          (existingSocials socials) searchUsername e.1 e.2 hel
        rw [hnone]
        simp [hcl, hel, hurlf] at ih ⊢
        omega
    · have hclf : isClaimedB e.2 = false := Bool.eq_false_iff.mpr hcl
      have hel : eligibleB e.2 = false := by unfold eligibleB; rw [hclf]; rfl
      have hnone := entryCandidate_none_of_not_eligible
        (existingSocials socials) searchUsername e.1 e.2 hel
      rw [hnone]
      simp [hclf, hel] at ih ⊢
      omega

/-! ## Stepping lemmas for the polling loop -/

theorem isContB_spec (backend : Nat → PollResp) (k : Nat)
    (hc : isContB (backend k) = true) :
    ∃ resp, backend k = PollResp.ok resp ∧
      (resp.status = "pending" ∨ resp.status = "running") ∧
      resp.status ≠ "completed" ∧ resp.status ≠ "failed" := by
  cases hb : backend k with
  | err msg => rw [hb] at hc; simp [isContB] at hc
  | ok resp =>
    rw [hb] at hc
    have hsp : resp.status = "pending" ∨ resp.status = "running" := by
      simpa [isContB] using hc
    refine ⟨resp, rfl, hsp, ?_, ?_⟩
    · rcases hsp with h | h <;> rw [h] <;> decide
    · rcases hsp with h | h <;> rw [h] <;> decide

theorem pollAux_cont_step (backend : Nat → PollResp) (maxAttempts fuel k : Nat)
    (hc : isContB (backend k) = true) (hk : k + 1 < maxAttempts) :
    pollAux backend maxAttempts (fuel + 1) k
      = ⟨(pollAux backend maxAttempts fuel (k + 1)).outcome,
         (pollAux backend maxAttempts fuel (k + 1)).polls + 1,
         (pollAux backend maxAttempts fuel (k + 1)).delayMs + sherlockPollIntervalMs⟩ := by
  obtain ⟨resp, hb, hsp, hnc, hnf⟩ := isContB_spec backend k hc
  simp only [pollAux, hb]
  rw [if_neg hnc, if_neg hnf, if_pos ⟨hk, hsp⟩]

theorem pollAux_completed_step (backend : Nat → PollResp) (maxAttempts fuel k : Nat)
    (resp : JobStatusResp) (hb : backend k = PollResp.ok resp)
    (hst : resp.status = "completed") :
    pollAux backend maxAttempts (fuel + 1) k
      = ⟨PollOutcome.completedOut resp.results, 1, 0⟩ := by
  simp only [pollAux, hb]
  rw [if_pos hst]

theorem pollAux_err_step (backend : Nat → PollResp) (maxAttempts fuel k : Nat)
    (msg : String) (hb : backend k = PollResp.err msg) :
    pollAux backend maxAttempts (fuel + 1) k = ⟨PollOutcome.pollError msg, 1, 0⟩ := by
  simp only [pollAux, hb]

theorem pollAux_failed_step (backend : Nat → PollResp) (maxAttempts fuel k : Nat)
    (resp : JobStatusResp) (hb : backend k = PollResp.ok resp)
    (hst : resp.status = "failed") :
    pollAux backend maxAttempts (fuel + 1) k
      = ⟨PollOutcome.failedOut (jsOrStr resp.error "Search failed"), 1, 0⟩ := by
  simp only [pollAux, hb]
  rw [if_neg (show ¬ resp.status = "completed" from by rw [hst]; decide), if_pos hst]

theorem pollAux_timeout_step (backend : Nat → PollResp) (maxAttempts fuel k : Nat)
    (hc : isContB (backend k) = true) (hk : maxAttempts ≤ k + 1) :
    pollAux backend maxAttempts (fuel + 1) k = ⟨PollOutcome.timedOut, 1, 0⟩ := by
  obtain ⟨resp, hb, hsp, hnc, hnf⟩ := isContB_spec backend k hc
  simp only [pollAux, hb]
  rw [if_neg hnc, if_neg hnf, if_neg (fun hcontra => by omega), if_pos hk]

theorem pollAux_skip (n : Nat) : ∀ (k : Nat) (backend : Nat → PollResp) (maxAttempts : Nat),
    (∀ i, i < n → isContB (backend (k + i)) = true) → k + n < maxAttempts →
    pollAux backend maxAttempts (maxAttempts + 1 - k) k
      = ⟨(pollAux backend maxAttempts (maxAttempts + 1 - (k + n)) (k + n)).outcome,
         (pollAux backend maxAttempts (maxAttempts + 1 - (k + n)) (k + n)).polls + n,
         (pollAux backend maxAttempts (maxAttempts + 1 - (k + n)) (k + n)).delayMs
           + n * sherlockPollIntervalMs⟩ := by
  induction n with
  | zero =>
    intro k backend maxAttempts hcont hlt
    simp
  | succ m ih =>
    intro k backend maxAttempts hcont hlt
    have hk1 : k + 1 < maxAttempts := by omega
    have hfuel : maxAttempts + 1 - k = (maxAttempts + 1 - (k + 1)) + 1 := by omega
    rw [hfuel, pollAux_cont_step backend maxAttempts _ k (hcont 0 (Nat.succ_pos m)) hk1]
    have hcont2 : ∀ i, i < m → isContB (backend (k + 1 + i)) = true := by
      intro i hi
      have := hcont (i + 1) (by omega)
      rwa [show k + (i + 1) = k + 1 + i from by omega] at this
    rw [ih (k + 1) backend maxAttempts hcont2 (by omega)]
    rw [show k + 1 + m = k + (m + 1) from by omega]
    simp only [PollRun.mk.injEq]
    refine ⟨trivial, by omega, by ring⟩

theorem pollAux_polls_le (backend : Nat → PollResp) (maxAttempts : Nat) :
    ∀ (fuel k : Nat), k < maxAttempts →
      (pollAux backend maxAttempts fuel k).polls ≤ maxAttempts - k := by
  intro fuel
  induction fuel with
  | zero => intro k hk; simp [pollAux]
  | succ f ih =>
    intro k hk
    simp only [pollAux]
    cases backend k with
    | err msg => simp; omega
    | ok resp =>
      dsimp only
      by_cases h1 : resp.status = "completed"
      · rw [if_pos h1]; simp; omega
      · rw [if_neg h1]
        by_cases h2 : resp.status = "failed"
        · rw [if_pos h2]; simp; omega
        · rw [if_neg h2]
          by_cases h3 : k + 1 < maxAttempts ∧ (resp.status = "pending" ∨ resp.status = "running")
          · rw [if_pos h3]
            have := ih (k + 1) h3.1
            simp
            omega
          · rw [if_neg h3]
            by_cases h4 : maxAttempts ≤ k + 1
            · rw [if_pos h4]; simp; omega
            · rw [if_neg h4]; simp; omega

/-! ## Anatomy of the faithful (throwing) reconciliation model -/

theorem entryCandidateJs_ok_none_of_not_eligible (existing : List String)
    (siteName : String) (r : RawFinding) (h : eligibleB r = false) :
    entryCandidateJs existing siteName r = .ok none := by
  unfold eligibleB isClaimedB urlTruthyB optTruthy at h
  unfold entryCandidateJs
  cases r with
  | nonObject => rfl
  | obj status url_user username =>
    cases status with
    | none => cases url_user <;> rfl
    | some st =>
      cases url_user with
      | none => rfl
      | some u =>
        dsimp only at h ⊢
        rw [if_neg]
        rintro ⟨h1, h2⟩
        subst h1
        rw [isEmpty_false_of_ne u h2] at h
        simp at h

theorem entryCandidateJs_eq_some (existing : List String) (siteName : String)
    (r : RawFinding) (c : FoundAccount)
    (h : entryCandidateJs existing siteName r = .ok (some c)) :
    ∃ st u hh, r = RawFinding.obj (some st) (some u) (some hh) ∧ st = "Claimed" ∧ u ≠ "" ∧
      hh ≠ "" ∧ existing.contains (slugify siteName) = false ∧
      c = ⟨slugify siteName, u, hh, siteName⟩ := by
  unfold entryCandidateJs at h
  cases r with
  | nonObject => exact absurd h (by simp)
  | obj status url_user username =>
    cases status with
    | none => cases url_user <;> simp at h
    | some st =>
      cases url_user with
      | none => simp at h
      | some u =>
        dsimp only at h
        by_cases hcond : st = "Claimed" ∧ u ≠ ""
        · rw [if_pos hcond] at h
          by_cases hex : existing.contains (slugify siteName) = true
          · rw [if_pos hex] at h
            exact absurd h (by simp)
          · rw [if_neg hex] at h
            cases username with
            | none => exact absurd h (by simp)
            | some hh =>
              dsimp only at h
              by_cases hhe : hh.isEmpty = true
              · rw [if_pos hhe] at h
                exact absurd h (by simp)
              · rw [if_neg hhe] at h
                refine ⟨st, u, hh, rfl, hcond.1, hcond.2, ?_, Bool.eq_false_iff.mpr hex, ?_⟩
                · intro hcontra
                  exact hhe (by rw [hcontra]; decide)
                · simp only [Except.ok.injEq, Option.some.injEq] at h
                  exact h.symm
        · rw [if_neg hcond] at h
          exact absurd h (by simp)

theorem entryCandidateJs_error_falsy (existing : List String) (siteName u : String)
    (user : Option String) (hu : u ≠ "")
    (hex : existing.contains (slugify siteName) = false)
    (huser : user = none ∨ user = some "") :
    entryCandidateJs existing siteName (RawFinding.obj (some "Claimed") (some u) user)
      = Except.error "searchUsername is not defined" := by
  unfold entryCandidateJs
  dsimp only
  rw [if_pos ⟨rfl, hu⟩, if_neg (show ¬ _ = true from by rw [hex]; exact Bool.false_ne_true)]
  rcases huser with h0 | h0 <;> subst h0 <;> rfl

theorem accumCandidatesJs_middle_skip (existing : List String)
    (siteName : String) (r : RawFinding)
    (h : entryCandidateJs existing siteName r = .ok none) :
    ∀ (pre post : List (String × RawFinding)),
      accumCandidatesJs existing (pre ++ (siteName, r) :: post)
        = accumCandidatesJs existing (pre ++ post) := by
  intro pre
  induction pre with
  | nil =>
    intro post
    simp [accumCandidatesJs, h]
  | cons x pre' ih =>
    intro post
    simp only [List.cons_append, accumCandidatesJs, List.append_eq]
    rw [ih post]

/-! ## Claim theorems -/

/-- C4: the key normalizer is a pure total deterministic function (it is
a Lean function by construction) that trims surrounding whitespace,
lowercases, replaces each whitespace run with a single underscore, and
strips every character outside the class `[a-z0-9_-]` — stated as
equality of the source's `slugify` with `slugifySpec`, the independent
formalization of the spec's wording — and in particular
`slugify " My Cool Site! " = "my_cool_site"` (Scenario E). -/
theorem c4_claim :
    (∀ s, slugify s = slugifySpec s) ∧ slugify " My Cool Site! " = "my_cool_site" :=
  ⟨slugify_eq_spec, by decide⟩

/-- C10: the normalizer is idempotent, its output stays inside
`[a-z0-9_-]`, and the defensive re-normalization of already-canonical
registry keys performed by reconciliation leaves the canonical key set
unchanged. -/
theorem c10_claim :
    (∀ s, slugify (slugify s) = slugify s) ∧
    (∀ s, (slugify s).data.all allowedChar = true) ∧
    (∀ socials : List (String × AccountEntry),
      existingSocials (socials.map (fun kv => (slugify kv.1, kv.2)))
        = existingSocials socials) := by
  refine ⟨slugify_idem, ?_, ?_⟩
  · intro s
    exact List.all_eq_true.mpr fun x hx => mem_slugify_allowed s x hx
  · intro socials
    unfold existingSocials
    rw [List.map_map]
    exact List.map_congr_left fun kv _ => slugify_idem kv.1

/-- C2: no candidate emitted by reconciliation carries a platform key
equal to the normalized form of any key already present in the
registry (in particular no entry — root entries included — is ever
proposed for overwrite). -/
theorem c2_claim (results : List (String × RawFinding))
    (socials : List (String × AccountEntry)) (searchUsername : String)
    (c : FoundAccount) (hc : c ∈ foundAccounts results socials searchUsername)
    (kv : String × AccountEntry) (hkv : kv ∈ socials) :
    c.platform ≠ slugify kv.1 := by
  obtain ⟨e, he, hec⟩ := List.mem_filterMap.mp hc
  obtain ⟨st, u, user, hr, hst, hu, hnc, hceq⟩ := entryCandidate_eq_some _ _ _ _ _ hec
  subst hceq
  intro heq
  dsimp only at heq
  have hmem : slugify kv.1 ∈ existingSocials socials :=
    List.mem_map_of_mem (fun kv => slugify kv.1) hkv
  have hcontains : (existingSocials socials).contains (slugify e.1) = true := by
    rw [heq]
    exact List.elem_iff.mpr hmem
  rw [hcontains] at hnc
  exact Bool.noConfusion hnc

/-- C2 witness: at a concrete result map and registry, the emitted
candidate's platform differs from the normalized existing key. -/
theorem c2_witness :
    (⟨"reddit", "https://reddit.com/u/jdoe", "jdoe", "Reddit"⟩ : FoundAccount).platform
      ≠ slugify "GitHub" :=
  c2_claim
    [("Reddit", RawFinding.obj (some "Claimed") (some "https://reddit.com/u/jdoe") none)]
    [("GitHub", AccountEntry.bare "x")] "jdoe"
    ⟨"reddit", "https://reddit.com/u/jdoe", "jdoe", "Reddit"⟩ (by decide)
    ("GitHub", AccountEntry.bare "x") (by decide)

/-- C9: labels with equal normalized keys are the same platform to the
engine: membership in the known-key set, the skip-as-existing test, and
whether a candidate is emitted coincide for the two labels. -/
theorem c9_claim (l1 l2 : String) (hs : slugify l1 = slugify l2)
    (socials : List (String × AccountEntry)) (searchUsername : String) (r : RawFinding) :
    ((existingSocials socials).contains (slugify l1)
        = (existingSocials socials).contains (slugify l2)) ∧
    (skippedAsExistingB (existingSocials socials) l1 r
        = skippedAsExistingB (existingSocials socials) l2 r) ∧
    ((entryCandidate (existingSocials socials) searchUsername l1 r).isSome
        = (entryCandidate (existingSocials socials) searchUsername l2 r).isSome) := by
  refine ⟨by rw [hs], ?_, ?_⟩
  · unfold skippedAsExistingB
    rw [hs]
  · rw [entryCandidate_isSome_iff, entryCandidate_isSome_iff, hs]

/-- C9 witness: the labels GitHub and " github " normalize identically,
so their candidate emission coincides against the same registry. -/
theorem c9_witness :
    (entryCandidate (existingSocials [("github", AccountEntry.bare "x")]) "jdoe" "GitHub"
        (RawFinding.obj (some "Claimed") (some "https://github.com/jdoe") none)).isSome
      = (entryCandidate (existingSocials [("github", AccountEntry.bare "x")]) "jdoe" " github "
          (RawFinding.obj (some "Claimed") (some "https://github.com/jdoe") none)).isSome :=
  (c9_claim "GitHub" " github " (by decide) [("github", AccountEntry.bare "x")] "jdoe"
    (RawFinding.obj (some "Claimed") (some "https://github.com/jdoe") none)).2.2

/-- C7 counterexample: Scenario A is false of the code: with the
observed handle absent, the pushed object literal evaluates the
out-of-scope identifier named searchUsername and throws a
ReferenceError, so reconciling the Scenario A result map yields an
error, not one candidate whose handle is the subject query. -/
theorem c7_counterexample :
    processSearchResultsJs
        [("GitHub", RawFinding.obj (some "Claimed") (some "https://github.com/jdoe") none)] []
      = Except.error "searchUsername is not defined" := rfl

/-- C7 (amended): every candidate the code actually emits carries the
normalized platform key, the raw label as display label, the finding's
claimed url, and as handle the observed handle — which is necessarily
present and nonempty, for when it is absent or empty on a pushed
finding there is no subject-query fallback: the code throws the
unbound-identifier ReferenceError and emits nothing. -/
theorem c7_claim :
    (∀ (existing : List String) (siteName : String) (r : RawFinding) (c : FoundAccount),
      entryCandidateJs existing siteName r = Except.ok (some c) →
      c.displayName = siteName ∧ c.platform = slugify siteName ∧
      (∃ st user, r = RawFinding.obj st (some c.url) user) ∧
      usernameOf r = some c.handle ∧ c.handle ≠ "") ∧
    (∀ (existing : List String) (siteName u : String) (user : Option String),
      u ≠ "" → existing.contains (slugify siteName) = false →
      (user = none ∨ user = some "") →
      entryCandidateJs existing siteName (RawFinding.obj (some "Claimed") (some u) user)
        = Except.error "searchUsername is not defined") ∧
    processSearchResultsJs
        [("GitHub", RawFinding.obj (some "Claimed") (some "https://github.com/jdoe") none)] []
      = Except.error "searchUsername is not defined" := by
  refine ⟨?_, entryCandidateJs_error_falsy, rfl⟩
  intro existing siteName r c h
  obtain ⟨st, u, hh, hr, hst, hu, hhne, hex, hceq⟩ := entryCandidateJs_eq_some _ _ _ _ h
  subst hr
  subst hceq
  exact ⟨rfl, rfl, ⟨some st, some hh, rfl⟩, rfl, hhne⟩

/-- C7 witness: the field conjunct applied at a concrete pushed finding
with a present nonempty observed handle: the candidate's handle is the
observed handle. -/
theorem c7_witness :
    usernameOf (RawFinding.obj (some "Claimed") (some "https://example.org/u") (some "observed"))
      = some (⟨"git_hub", "https://example.org/u", "observed", "Git Hub"⟩ : FoundAccount).handle :=
  (c7_claim.1 [] "Git Hub"
    (RawFinding.obj (some "Claimed") (some "https://example.org/u") (some "observed"))
    ⟨"git_hub", "https://example.org/u", "observed", "Git Hub"⟩ rfl).2.2.2.1

/-- C1 counterexample: reconciliation can throw: an eligible finding
whose observed handle is the empty string reaches the push, the `||`
does not short-circuit, and evaluating the out-of-scope identifier
named searchUsername raises a ReferenceError — the missing field is
surfaced as a thrown error, not treated as "not a candidate". -/
theorem c1_counterexample :
    processSearchResultsJs
        [("X", RawFinding.obj (some "Claimed") (some "https://x.example/u") (some ""))] []
      = Except.error "searchUsername is not defined" := rfl

/-- C1 (amended): a finding that is not an object, lacks status
Claimed, or lacks a nonempty claimed url is simply not emitted as a
candidate and never throws, and a null result map is a no-op; but a
finding that reaches the push with an absent or empty observed handle
makes `processSearchResults` throw the ReferenceError for the
out-of-scope identifier named searchUsername, aborting the run with no
candidates emitted. -/
theorem c1_claim :
    (∀ socials : List (String × AccountEntry),
      processSearchResultsJsOpt none socials = none) ∧
    (∀ (pre post : List (String × RawFinding)) (socials : List (String × AccountEntry))
        (siteName : String) (r : RawFinding),
      eligibleB r = false →
      foundAccountsJs (pre ++ (siteName, r) :: post) socials
        = foundAccountsJs (pre ++ post) socials) ∧
    (∀ (rest : List (String × RawFinding)) (socials : List (String × AccountEntry))
        (siteName u : String) (user : Option String),
      u ≠ "" →
      (existingSocials socials).contains (slugify siteName) = false →
      (user = none ∨ user = some "") →
      foundAccountsJs ((siteName, RawFinding.obj (some "Claimed") (some u) user) :: rest)
          socials
        = Except.error "searchUsername is not defined") := by
  refine ⟨fun socials => rfl, ?_, ?_⟩
  · intro pre post socials siteName r hr
    unfold foundAccountsJs
    exact accumCandidatesJs_middle_skip (existingSocials socials) siteName r
      (entryCandidateJs_ok_none_of_not_eligible (existingSocials socials) siteName r hr)
      pre post
  · intro rest socials siteName u user hu hex huser
    have he := entryCandidateJs_error_falsy (existingSocials socials) siteName u user hu hex
      huser
    simp [foundAccountsJs, accumCandidatesJs, he]

/-- C1 witness: the throwing conjunct applied at the Scenario A input:
one Claimed finding with url and no observed handle aborts the run with
the ReferenceError. -/
theorem c1_witness :
    foundAccountsJs
        [("GitHub", RawFinding.obj (some "Claimed") (some "https://github.com/jdoe") none)] []
      = Except.error "searchUsername is not defined" :=
  c1_claim.2.2 [] [] "GitHub" "https://github.com/jdoe" none (by decide) (by decide)
    (Or.inl rfl)

/-- C6 counterexample: with skippedExisting read as the claim defines it
(Claimed findings skipped because their key is already known), the
identity totalClaimed = newCandidates + skippedExisting fails on a
Claimed finding that carries no url: it counts in totalClaimed but in
neither other bucket. -/
theorem c6_counterexample :
    ¬ (totalClaimed [("X", RawFinding.obj (some "Claimed") none none)]
        = (foundAccounts [("X", RawFinding.obj (some "Claimed") none none)] [] "u").length
          + skippedExistingCount [("X", RawFinding.obj (some "Claimed") none none)] []) := by
  decide

/-- C6 (amended): the full accounting identity is totalClaimed =
newCandidates + skippedExisting + claimedWithoutUrl (so the claimed
two-bucket identity holds exactly when every Claimed finding carries a
nonempty url); and with zero candidates the reported outcome
distinguishes totalClaimed positive (the already-added report, whose
count is totalClaimed) from totalClaimed zero (the found-nothing
report). -/
theorem c6_claim :
    ∀ (results : List (String × RawFinding)) (socials : List (String × AccountEntry))
      (searchUsername : String),
    (totalClaimed results
      = (foundAccounts results socials searchUsername).length
        + skippedExistingCount results socials + claimedWithoutUrlCount results) ∧
    ((foundAccounts results socials searchUsername).length = 0 →
      (totalClaimed results = 0 →
        procMessage results socials searchUsername = ProcMessage.noneFound) ∧
      (0 < totalClaimed results →
        procMessage results socials searchUsername
          = ProcMessage.noNewAlreadyAdded (totalClaimed results))) := by
  intro results socials searchUsername
  refine ⟨c6_partition results socials searchUsername, ?_⟩
  intro h0
  constructor
  · intro htc
    simp [procMessage, h0, htc]
  · intro htc
    simp [procMessage, h0, htc]

/-- C6 witness (spec Scenario B): one Claimed finding whose key is
already registered yields zero candidates and the already-added report
with count 1. -/
theorem c6_witness :
    procMessage
        [("Reddit", RawFinding.obj (some "Claimed") (some "https://reddit.com/u/jdoe") none)]
        [("reddit", AccountEntry.bare "jdoe99")] "jdoe"
      = ProcMessage.noNewAlreadyAdded 1 :=
  ((c6_claim
      [("Reddit", RawFinding.obj (some "Claimed") (some "https://reddit.com/u/jdoe") none)]
      [("reddit", AccountEntry.bare "jdoe99")] "jdoe").2 (by decide)).2 (by decide)

/-- C5: the polling loop uses the fixed 5000 ms interval and the
60-attempt budget, never issues more polls than the budget, stops
immediately on an observed terminal state — completed or failed — with
the terminal poll the last one issued, and on the Scenario C backend
(running, running, running, completed) issues exactly 4 polls. -/
theorem c5_claim :
    sherlockMaxAttempts = 60 ∧ sherlockPollIntervalMs = 5000 ∧
    (∀ backend : Nat → PollResp,
      (pollSearchResults backend sherlockMaxAttempts).polls ≤ sherlockMaxAttempts) ∧
    (∀ (backend : Nat → PollResp) (n : Nat) (resp : JobStatusResp),
      (∀ i, i < n → isContB (backend i) = true) → n < sherlockMaxAttempts →
      backend n = PollResp.ok resp → resp.status = "completed" →
      pollSearchResults backend sherlockMaxAttempts
        = ⟨PollOutcome.completedOut resp.results, n + 1, n * sherlockPollIntervalMs⟩) ∧
    (∀ (backend : Nat → PollResp) (n : Nat) (resp : JobStatusResp),
      (∀ i, i < n → isContB (backend i) = true) → n < sherlockMaxAttempts →
      backend n = PollResp.ok resp → resp.status = "failed" →
      pollSearchResults backend sherlockMaxAttempts
        = ⟨PollOutcome.failedOut (jsOrStr resp.error "Search failed"), n + 1,
           n * sherlockPollIntervalMs⟩) ∧
    pollSearchResults backendC sherlockMaxAttempts
      = ⟨PollOutcome.completedOut
          (some [("GitHub",
            RawFinding.obj (some "Claimed") (some "https://github.com/jdoe") none)]),
        4, 15000⟩ := by
  refine ⟨rfl, rfl, ?_, ?_, ?_, by decide⟩
  · intro backend
    have hb := pollAux_polls_le backend sherlockMaxAttempts (sherlockMaxAttempts + 1) 0
      (by decide)
    simpa [pollSearchResults] using hb
  · intro backend n resp hcont hn hb hst
    unfold pollSearchResults
    have h0 : ∀ i, i < n → isContB (backend (0 + i)) = true := by
      intro i hi
      rw [Nat.zero_add]
      exact hcont i hi
    have hs := pollAux_skip n 0 backend sherlockMaxAttempts h0 (by omega)
    simp only [Nat.zero_add, Nat.sub_zero] at hs
    rw [hs]
    rw [show sherlockMaxAttempts + 1 - n = (sherlockMaxAttempts - n) + 1 from by omega]
    rw [pollAux_completed_step backend sherlockMaxAttempts (sherlockMaxAttempts - n) n resp
      hb hst]
    simp only [PollRun.mk.injEq]
    refine ⟨trivial, by omega, by rw [Nat.zero_add]⟩
  · intro backend n resp hcont hn hb hst
    unfold pollSearchResults
    have h0 : ∀ i, i < n → isContB (backend (0 + i)) = true := by
      intro i hi
      rw [Nat.zero_add]
      exact hcont i hi
    have hs := pollAux_skip n 0 backend sherlockMaxAttempts h0 (by omega)
    simp only [Nat.zero_add, Nat.sub_zero] at hs
    rw [hs]
    rw [show sherlockMaxAttempts + 1 - n = (sherlockMaxAttempts - n) + 1 from by omega]
    rw [pollAux_failed_step backend sherlockMaxAttempts (sherlockMaxAttempts - n) n resp
      hb hst]
    simp only [PollRun.mk.injEq]
    refine ⟨trivial, by omega, by rw [Nat.zero_add]⟩

/-- C5 witness: the general terminal-stop conjunct applied to the
Scenario C backend at n = 3. -/
theorem c5_witness :
    pollSearchResults backendC sherlockMaxAttempts
      = ⟨PollOutcome.completedOut
          (some [("GitHub",
            RawFinding.obj (some "Claimed") (some "https://github.com/jdoe") none)]),
        4, 15000⟩ :=
  c5_claim.2.2.2.1 backendC 3
    ⟨"completed",
      some [("GitHub", RawFinding.obj (some "Claimed") (some "https://github.com/jdoe") none)],
      none⟩
    (fun i hi => by interval_cases i <;> decide) (by decide) (by decide) rfl

/-- C8: budget exhaustion reports a timed-out outcome distinct from the
job-level failed outcome (the pure model's backend is read-only, so no
job state is mutated); with every poll in the budget non-terminal the
loop issues exactly the budget's polls and times out, and the Scenario D
backend with budget 2 times out after exactly 2 polls. -/
theorem c8_claim :
    (∀ msg, PollOutcome.timedOut ≠ PollOutcome.failedOut msg) ∧
    (∀ (backend : Nat → PollResp) (maxAttempts : Nat), 0 < maxAttempts →
      (∀ i, i < maxAttempts → isContB (backend i) = true) →
      pollSearchResults backend maxAttempts
        = ⟨PollOutcome.timedOut, maxAttempts, (maxAttempts - 1) * sherlockPollIntervalMs⟩) ∧
    pollSearchResults pendingBackend 2 = ⟨PollOutcome.timedOut, 2, 5000⟩ := by
  refine ⟨fun msg h => PollOutcome.noConfusion h, ?_, by decide⟩
  intro backend maxAttempts hpos hcont
  unfold pollSearchResults
  have h0 : ∀ i, i < maxAttempts - 1 → isContB (backend (0 + i)) = true := by
    intro i hi
    rw [Nat.zero_add]
    exact hcont i (by omega)
  have hs := pollAux_skip (maxAttempts - 1) 0 backend maxAttempts h0 (by omega)
  simp only [Nat.zero_add, Nat.sub_zero] at hs
  rw [hs]
  rw [show maxAttempts + 1 - (maxAttempts - 1) = 1 + 1 from by omega]
  rw [pollAux_timeout_step backend maxAttempts 1 (maxAttempts - 1)
    (hcont (maxAttempts - 1) (by omega)) (by omega)]
  simp only [PollRun.mk.injEq]
  refine ⟨trivial, by omega, by rw [Nat.zero_add]⟩

/-- C8 witness: the exhaustion conjunct applied to the perpetually
pending backend with budget 2. -/
theorem c8_witness :
    pollSearchResults pendingBackend 2 = ⟨PollOutcome.timedOut, 2, 5000⟩ :=
  c8_claim.2.1 pendingBackend 2 (by decide) (fun i hi => rfl)

/-- C3 counterexample: the claim says a poll error consumes one attempt
and is retried, invisible until the budget is exhausted; on a backend
whose first poll rejects, the code instead surfaces the error at once —
one single poll, outcome pollError, with the 60-attempt budget far from
exhausted. -/
theorem c3_counterexample :
    pollSearchResults backendErr sherlockMaxAttempts
        = ⟨PollOutcome.pollError "network down", 1, 0⟩ ∧
      1 < sherlockMaxAttempts :=
  ⟨by decide, by decide⟩

/-- C3 (amended): an error raised by a poll attempt aborts tracking
immediately: the rejected poll is the last one issued, its message is
surfaced as the poll-error outcome at once, and no retry or separate
budget-exhaustion condition for errors exists. -/
theorem c3_claim (backend : Nat → PollResp) (maxAttempts n : Nat) (msg : String)
    (hcont : ∀ i, i < n → isContB (backend i) = true) (hn : n < maxAttempts)
    (hb : backend n = PollResp.err msg) :
    pollSearchResults backend maxAttempts
      = ⟨PollOutcome.pollError msg, n + 1, n * sherlockPollIntervalMs⟩ := by
  unfold pollSearchResults
  have h0 : ∀ i, i < n → isContB (backend (0 + i)) = true := by
    intro i hi
    rw [Nat.zero_add]
    exact hcont i hi
  have hs := pollAux_skip n 0 backend maxAttempts h0 (by omega)
  simp only [Nat.zero_add, Nat.sub_zero] at hs
  rw [hs]
  rw [show maxAttempts + 1 - n = (maxAttempts - n) + 1 from by omega]
  rw [pollAux_err_step backend maxAttempts (maxAttempts - n) n msg hb]
  simp only [PollRun.mk.injEq]
  refine ⟨trivial, by omega, by rw [Nat.zero_add]⟩

/-- C3 witness: one running poll, then a rejecting poll: tracking stops
at the second poll with the poll-error outcome. -/
theorem c3_witness :
    pollSearchResults backendStumble 60 = ⟨PollOutcome.pollError "boom", 2, 5000⟩ :=
  c3_claim backendStumble 60 1 "boom"
    (fun i hi => by interval_cases i; decide) (by decide) rfl

end Dossier
